import Mathlib

/-!
Verification of the multi-series alignment/transform pipeline of
`src/app.py` (a Streamlit dashboard fetching FRED macroeconomic series).

The shallow embedding below models:
  * calendar dates (pandas `Timestamp` at midnight) as `(y, m, d)` triples
    compared lexicographically;
  * a pandas `DataFrame` with a `date` column plus named value columns as
    `Frame` (a column-name list plus rows of `date × nullable values`,
    `NaN` modelled as `none`);
  * the chained `pd.merge(..., on="date", how="outer")` followed by
    `df.sort_values("date")` (app.py lines 117-122 and 387-390);
  * `Series.pct_change(periods=k) * 100` (lines 106, 110) over IEEE
    semantics for the zero-denominator case;
  * the z-score block `(df_z[col] - df_z[col].mean()) / df_z[col].std()`
    (lines 370-375), pandas `std()` defaulting to `ddof=1`;
  * `df.to_csv(index=False)` (line 162);
  * the two series-loading loops and the `start > end` guard of the second
    page revision (lines 303-305, 353-368, 381-393).
-/

namespace FedFunds

/-- A calendar date `(y, m, d)`; pandas Timestamps in this app always sit at
midnight, so only the date triple matters. -/
structure Date where
  y : Nat
  m : Nat
  d : Nat
deriving DecidableEq

/-- Strict `<` on dates, lexicographic on (year, month, day) — the order
pandas uses for datetime comparison and `sort_values("date")`. -/
def Date.ltb (a b : Date) : Bool :=
  decide (a.y < b.y) ||
    (decide (a.y = b.y) && (decide (a.m < b.m) ||
      (decide (a.m = b.m) && decide (a.d < b.d))))

/-- Non-strict `≤` on dates. -/
def Date.leb (a b : Date) : Bool :=
  Date.ltb a b || decide (a = b)

theorem Date.ltb_irrefl (a : Date) : Date.ltb a a = false := by
  simp [Date.ltb]

theorem Date.ltb_iff (a b : Date) :
    Date.ltb a b = true ↔
      a.y < b.y ∨ (a.y = b.y ∧ (a.m < b.m ∨ (a.m = b.m ∧ a.d < b.d))) := by
  simp [Date.ltb]

theorem Date.ltb_trans {a b c : Date} (h1 : Date.ltb a b = true)
    (h2 : Date.ltb b c = true) : Date.ltb a c = true := by
  rw [Date.ltb_iff] at h1 h2 ⊢
  omega

theorem Date.ltb_asymm {a b : Date} (h : Date.ltb a b = true) :
    Date.ltb b a = false := by
  rw [Date.ltb_iff] at h
  rw [← Bool.not_eq_true, Date.ltb_iff]
  omega

theorem Date.eq_of_not_ltb {a b : Date} (h1 : Date.ltb a b = false)
    (h2 : Date.ltb b a = false) : a = b := by
  obtain ⟨ay, am, ad⟩ := a
  obtain ⟨cy, cm, cd⟩ := b
  rw [← Bool.not_eq_true, Date.ltb_iff] at h1 h2
  dsimp only at h1 h2
  simp only [Date.mk.injEq]
  omega

theorem Date.leb_of_ltb {a b : Date} (h : Date.ltb a b = true) :
    Date.leb a b = true := by
  simp [Date.leb, h]

/-- A pandas DataFrame with a leading `date` column: named value columns
plus rows, each row a date and one nullable value per column (`none` = NaN). -/
structure Frame (α : Type) where
  cols : List String
  rows : List (Date × List (Option α))
deriving DecidableEq

/-- The `date` column of a frame, in row order. -/
def Frame.dates {α : Type} (f : Frame α) : List Date :=
  f.rows.map Prod.fst

/-- Strict ascending date order as a relation for `List.Pairwise`. -/
def dlt (a b : Date) : Prop := Date.ltb a b = true

instance : DecidableRel dlt := fun a b => by
  unfold dlt; infer_instance

/-- Well-formed frame: every row has one entry per column, and the dates are
strictly ascending (hence unique) — the shape `load_fred_series` returns and
every pipeline stage preserves. -/
def Frame.WF {α : Type} (f : Frame α) : Prop :=
  (∀ r ∈ f.rows, r.2.length = f.cols.length) ∧ f.dates.Pairwise dlt

instance {α : Type} [DecidableEq α] (f : Frame α) : Decidable (f.WF) := by
  unfold Frame.WF; infer_instance

/-- Ascending insertion of a date into a strictly ascending date list,
keeping one copy of an already-present date. -/
def insertDate (x : Date) : List Date → List Date
  | [] => [x]
  | y :: ys =>
    if Date.ltb x y then x :: y :: ys
    else if Date.ltb y x then y :: insertDate x ys
    else y :: ys

/-- Sorted union of two strictly ascending date lists: the key set of a
pandas outer join, listed in ascending order. -/
def mergeUnion (xs ys : List Date) : List Date :=
  xs.foldr insertDate ys

theorem mem_insertDate (a x : Date) :
    ∀ l : List Date, a ∈ insertDate x l ↔ a = x ∨ a ∈ l := by
  intro l
  induction l with
  | nil => simp [insertDate]
  | cons y ys ih =>
    by_cases h1 : Date.ltb x y = true
    · rw [show insertDate x (y :: ys) = x :: y :: ys by simp [insertDate, h1]]
      simp only [List.mem_cons]
    · by_cases h2 : Date.ltb y x = true
      · rw [show insertDate x (y :: ys) = y :: insertDate x ys by
          simp [insertDate, h1, h2]]
        simp only [List.mem_cons, ih]
        tauto
      · have hxy : x = y := Date.eq_of_not_ltb
          (by simpa using h1) (by simpa using h2)
        subst hxy
        rw [show insertDate x (x :: ys) = x :: ys by
          simp [insertDate, Date.ltb_irrefl]]
        simp only [List.mem_cons]
        tauto

theorem insertDate_pairwise (x : Date) :
    ∀ l : List Date, l.Pairwise dlt → (insertDate x l).Pairwise dlt := by
  intro l
  induction l with
  | nil =>
    intro _
    simp [insertDate]
  | cons y ys ih =>
    intro h
    rcases List.pairwise_cons.mp h with ⟨hall, htail⟩
    by_cases h1 : Date.ltb x y = true
    · rw [show insertDate x (y :: ys) = x :: y :: ys by
        simp [insertDate, h1]]
      refine List.pairwise_cons.mpr ⟨?_, h⟩
      intro b hb
      rcases List.mem_cons.mp hb with rfl | hb2
      · exact h1
      · exact Date.ltb_trans h1 (hall b hb2)
    · by_cases h2 : Date.ltb y x = true
      · rw [show insertDate x (y :: ys) = y :: insertDate x ys by
          simp [insertDate, h1, h2]]
        refine List.pairwise_cons.mpr ⟨?_, ih htail⟩
        intro b hb
        rcases (mem_insertDate b x ys).mp hb with rfl | hb2
        · exact h2
        · exact hall b hb2
      · rw [show insertDate x (y :: ys) = y :: ys by
          simp [insertDate, h1, h2]]
        exact h

theorem mem_mergeUnion (a : Date) :
    ∀ (xs ys : List Date), a ∈ mergeUnion xs ys ↔ a ∈ xs ∨ a ∈ ys := by
  intro xs ys
  induction xs with
  | nil => simp [mergeUnion]
  | cons x xs ih =>
    show a ∈ insertDate x (mergeUnion xs ys) ↔ _
    rw [mem_insertDate, ih]
    simp only [List.mem_cons]
    tauto

theorem mergeUnion_pairwise (xs ys : List Date) (hxs : xs.Pairwise dlt)
    (hys : ys.Pairwise dlt) : (mergeUnion xs ys).Pairwise dlt := by
  induction xs with
  | nil => simpa [mergeUnion] using hys
  | cons x xs ih =>
    show (insertDate x (mergeUnion xs ys)).Pairwise dlt
    exact insertDate_pairwise x _ (ih (List.pairwise_cons.mp hxs).2)


/-- Two strictly ascending date lists with the same members are equal. -/
theorem sorted_ext :
    ∀ (xs ys : List Date), xs.Pairwise dlt → ys.Pairwise dlt →
      (∀ a, a ∈ xs ↔ a ∈ ys) → xs = ys := by
  intro xs
  induction xs with
  | nil =>
    intro ys _ _ hmem
    cases ys with
    | nil => rfl
    | cons y ys =>
      exact absurd ((hmem y).mpr (List.mem_cons_self y ys)) (List.not_mem_nil y)
  | cons x xs ihx =>
    intro ys hx hys hmem
    cases ys with
    | nil =>
      exact absurd ((hmem x).mp (List.mem_cons_self x xs)) (List.not_mem_nil x)
    | cons y ys =>
      rcases List.pairwise_cons.mp hx with ⟨hxall, hxs⟩
      rcases List.pairwise_cons.mp hys with ⟨hyall, hys2⟩
      have hxy : x = y := by
        rcases List.mem_cons.mp ((hmem x).mp (by simp)) with h | h
        · exact h
        · rcases List.mem_cons.mp ((hmem y).mpr (by simp)) with h2 | h2
          · exact h2.symm
          · exact absurd (Date.ltb_trans (hyall x h) (hxall y h2))
              (by simp [Date.ltb_irrefl])
      subst hxy
      have htail : ∀ a, a ∈ xs ↔ a ∈ ys := by
        intro a
        constructor
        · intro ha
          rcases List.mem_cons.mp ((hmem a).mp (List.mem_cons_of_mem x ha))
            with rfl | h
          · exact absurd (hxall a ha) (by simp [dlt, Date.ltb_irrefl])
          · exact h
        · intro ha
          rcases List.mem_cons.mp ((hmem a).mpr (List.mem_cons_of_mem x ha))
            with rfl | h
          · exact absurd (hyall a ha) (by simp [dlt, Date.ltb_irrefl])
          · exact h
      rw [ihx ys hxs hys2 htail]

theorem pairwise_dlt_nodup {xs : List Date} (h : xs.Pairwise dlt) :
    xs.Nodup := by
  refine h.imp ?_
  intro a b hab heq
  rw [heq] at hab
  simp [dlt, Date.ltb_irrefl] at hab

/-- The row of `f` at date `d`, when present (pandas `.loc` on the date key). -/
def rowAt {α : Type} (f : Frame α) (d : Date) : Option (List (Option α)) :=
  (f.rows.find? (fun r => decide (r.1 = d))).map Prod.snd

/-- The values of `f` at date `d`: its row when the date is present, and one
null per column when it is absent (exactly the contribution of `f` to an
outer-joined row at `d`). -/
def rowVals {α : Type} (f : Frame α) (d : Date) : List (Option α) :=
  (rowAt f d).getD (List.replicate f.cols.length none)

theorem find?_date_eq {β : Type} (rows : List (Date × β)) (d : Date) (v : β)
    (hnd : (rows.map Prod.fst).Nodup) (hmem : (d, v) ∈ rows) :
    rows.find? (fun r => decide (r.1 = d)) = some (d, v) := by
  induction rows with
  | nil => cases hmem
  | cons r rs ih =>
    rcases List.mem_cons.mp hmem with he | hmem2
    · subst he
      simp [List.find?_cons_of_pos]
    · have hd : d ∈ rs.map Prod.fst :=
        List.mem_map.mpr ⟨(d, v), hmem2, rfl⟩
      have hne : ¬ r.1 = d := by
        intro he
        rcases List.nodup_cons.mp hnd with ⟨hnotin, _⟩
        exact hnotin (he ▸ hd)
      rw [List.find?_cons_of_neg _ (by simpa using hne)]
      exact ih (List.nodup_cons.mp hnd).2 hmem2

theorem rowAt_eq_none {α : Type} {f : Frame α} {d : Date}
    (h : d ∉ f.dates) : rowAt f d = none := by
  unfold rowAt
  rw [List.find?_eq_none.mpr]
  · rfl
  · intro r hr hpr
    exact h (List.mem_map.mpr ⟨r, hr, by simpa using hpr⟩)

theorem rowAt_of_mem {α : Type} {f : Frame α} {d : Date} {v : List (Option α)}
    (hnd : f.dates.Nodup) (hmem : (d, v) ∈ f.rows) :
    rowAt f d = some v := by
  unfold rowAt
  rw [find?_date_eq f.rows d v hnd hmem]
  rfl

theorem rowVals_length {α : Type} {f : Frame α} (hf : f.WF) (d : Date) :
    (rowVals f d).length = f.cols.length := by
  unfold rowVals rowAt
  cases hfind : f.rows.find? (fun r => decide (r.1 = d)) with
  | none => simp
  | some r =>
    have hr : r ∈ f.rows := List.mem_of_find?_eq_some hfind
    simpa using hf.1 r hr

theorem rowVals_of_not_mem {α : Type} {f : Frame α} {d : Date}
    (h : d ∉ f.dates) : rowVals f d = List.replicate f.cols.length none := by
  unfold rowVals
  rw [rowAt_eq_none h]
  rfl

/-- `pd.merge` suffixing of the left frame's columns: a column name also
present on the right gets `_x` appended. -/
def suffixLeft (l r : List String) : List String :=
  l.map (fun c => if c ∈ r then c ++ "_x" else c)

/-- `pd.merge` suffixing of the right frame's columns: a column name also
present on the left gets `_y` appended. -/
def suffixRight (l r : List String) : List String :=
  r.map (fun c => if c ∈ l then c ++ "_y" else c)

/-- `pd.merge(left, right, on="date", how="outer")` between frames whose
dates are strictly ascending and unique: the key set of the result is the
union of the two date sets (listed ascending — the script's subsequent
`sort_values("date")` makes the final order independent of pandas'
intermediate key order), a date absent from one side contributes nulls for
that side's columns, and overlapping column names get `_x`/`_y` suffixes. -/
def merge2 {α : Type} (l r : Frame α) : Frame α :=
  { cols := suffixLeft l.cols r.cols ++ suffixRight l.cols r.cols,
    rows := (mergeUnion l.dates r.dates).map
      (fun d => (d, rowVals l d ++ rowVals r d)) }

theorem merge2_dates {α : Type} (l r : Frame α) :
    (merge2 l r).dates = mergeUnion l.dates r.dates := by
  simp [merge2, Frame.dates, List.map_map, Function.comp_def]

theorem merge2_cols_length {α : Type} (l r : Frame α) :
    (merge2 l r).cols.length = l.cols.length + r.cols.length := by
  simp [merge2, suffixLeft, suffixRight]

theorem merge2_rowVals {α : Type} {l r : Frame α} (hl : l.WF) (hr : r.WF)
    (d : Date) : rowVals (merge2 l r) d = rowVals l d ++ rowVals r d := by
  have hpw : (mergeUnion l.dates r.dates).Pairwise dlt :=
    mergeUnion_pairwise l.dates r.dates hl.2 hr.2
  by_cases hd : d ∈ mergeUnion l.dates r.dates
  · have hmem : (d, rowVals l d ++ rowVals r d) ∈ (merge2 l r).rows :=
      List.mem_map.mpr ⟨d, hd, rfl⟩
    have hnd : (merge2 l r).dates.Nodup := by
      rw [merge2_dates]; exact pairwise_dlt_nodup hpw
    unfold rowVals
    rw [rowAt_of_mem hnd hmem]
    rfl
  · have hdl : d ∉ l.dates := fun h => hd ((mem_mergeUnion d _ _).mpr (Or.inl h))
    have hdr : d ∉ r.dates := fun h => hd ((mem_mergeUnion d _ _).mpr (Or.inr h))
    have hdm : d ∉ (merge2 l r).dates := by rw [merge2_dates]; exact hd
    rw [rowVals_of_not_mem hdm, rowVals_of_not_mem hdl, rowVals_of_not_mem hdr,
      merge2_cols_length, List.replicate_add]

theorem merge2_WF {α : Type} {l r : Frame α} (hl : l.WF) (hr : r.WF) :
    (merge2 l r).WF := by
  constructor
  · intro row hrow
    rcases List.mem_map.mp hrow with ⟨d, _, rfl⟩
    have h1 : (rowVals l d ++ rowVals r d).length = l.cols.length + r.cols.length := by
      rw [List.length_append, rowVals_length hl, rowVals_length hr]
    rw [show ((d, rowVals l d ++ rowVals r d) :
        Date × List (Option α)).2 = rowVals l d ++ rowVals r d from rfl, h1,
      merge2_cols_length]
  · rw [merge2_dates]
    exact mergeUnion_pairwise l.dates r.dates hl.2 hr.2

/-- One step of ascending insertion into a row list sorted by date. -/
def insertRow {α : Type} (x : Date × List (Option α)) :
    List (Date × List (Option α)) → List (Date × List (Option α))
  | [] => [x]
  | y :: ys => if Date.leb x.1 y.1 then x :: y :: ys else y :: insertRow x ys

/-- `df.sort_values("date")` (app.py lines 122 and 390): rows reordered by
ascending date; on the already-ascending outer-join output this is the
identity. -/
def sortValues {α : Type} (f : Frame α) : Frame α :=
  { cols := f.cols, rows := f.rows.foldr insertRow [] }

theorem foldr_insertRow_of_sorted {α : Type} :
    ∀ rows : List (Date × List (Option α)),
      (rows.map Prod.fst).Pairwise dlt → rows.foldr insertRow [] = rows := by
  intro rows
  induction rows with
  | nil => intro _; rfl
  | cons r rs ih =>
    intro h
    rw [List.map_cons, List.pairwise_cons] at h
    obtain ⟨hall, htail⟩ := h
    show insertRow r (rs.foldr insertRow []) = r :: rs
    rw [ih htail]
    cases rs with
    | nil => rfl
    | cons s ss =>
      have hle : Date.leb r.1 s.1 = true :=
        Date.leb_of_ltb (hall s.1 (List.mem_map.mpr ⟨s, by simp, rfl⟩))
      simp [insertRow, hle]

theorem sortValues_of_sorted {α : Type} {f : Frame α}
    (h : f.dates.Pairwise dlt) : sortValues f = f := by
  unfold sortValues
  rw [foldr_insertRow_of_sorted f.rows h]

/-- `df = reduce(lambda l, r: pd.merge(l, r, on="date", how="outer"),
df_list)` followed by `df = df.sort_values("date")` (app.py lines 389-390);
the first revision's explicit merge chain (lines 118-122) is the same fold
written out. The empty case never reaches the merge: the script stops with
an error message (line 393). -/
def alignFrames {α : Type} : List (Frame α) → Frame α
  | [] => { cols := [], rows := [] }
  | f :: fs => sortValues (fs.foldl merge2 f)

theorem foldl_merge2_spec {α : Type} :
    ∀ (fs : List (Frame α)) (acc : Frame α), acc.WF → (∀ f ∈ fs, f.WF) →
      (fs.foldl merge2 acc).WF
      ∧ (∀ d, d ∈ (fs.foldl merge2 acc).dates ↔
          d ∈ acc.dates ∨ ∃ f ∈ fs, d ∈ f.dates)
      ∧ (∀ d, rowVals (fs.foldl merge2 acc) d =
          rowVals acc d ++ (fs.map (fun f => rowVals f d)).flatten) := by
  intro fs
  induction fs with
  | nil =>
    intro acc hacc _
    refine ⟨hacc, ?_, ?_⟩
    · intro d; simp
    · intro d; simp
  | cons g gs ih =>
    intro acc hacc hall
    have hg : g.WF := hall g (by simp)
    have hgs : ∀ f ∈ gs, f.WF := fun f hf => hall f (List.mem_cons_of_mem g hf)
    have hacc2 : (merge2 acc g).WF := merge2_WF hacc hg
    obtain ⟨hwf, hmem, hvals⟩ := ih (merge2 acc g) hacc2 hgs
    refine ⟨by simpa using hwf, ?_, ?_⟩
    · intro d
      rw [show (g :: gs).foldl merge2 acc = gs.foldl merge2 (merge2 acc g)
          from rfl, hmem d, merge2_dates, mem_mergeUnion]
      constructor
      · rintro ((h | h) | ⟨f, hf, h⟩)
        · exact Or.inl h
        · exact Or.inr ⟨g, by simp, h⟩
        · exact Or.inr ⟨f, List.mem_cons_of_mem g hf, h⟩
      · rintro (h | ⟨f, hf, h⟩)
        · exact Or.inl (Or.inl h)
        · rcases List.mem_cons.mp hf with rfl | hf2
          · exact Or.inl (Or.inr h)
          · exact Or.inr ⟨f, hf2, h⟩
    · intro d
      rw [show (g :: gs).foldl merge2 acc = gs.foldl merge2 (merge2 acc g)
          from rfl, hvals d, merge2_rowVals hacc hg, List.map_cons,
        List.flatten_cons, List.append_assoc]

theorem rowAt_eq_some_rowVals {α : Type} {f : Frame α} (hf : f.WF) {d : Date}
    (hd : d ∈ f.dates) : rowAt f d = some (rowVals f d) := by
  rcases List.mem_map.mp hd with ⟨r, hr, rfl⟩
  have h2 : rowAt f r.1 = some r.2 :=
    rowAt_of_mem (pairwise_dlt_nodup hf.2) (by simpa using hr)
  rw [rowVals, h2]
  rfl

theorem alignFrames_spec {α : Type} (g : Frame α) (fs : List (Frame α))
    (hg : g.WF) (hfs : ∀ f ∈ fs, f.WF) :
    (alignFrames (g :: fs)).WF
    ∧ (∀ d, d ∈ (alignFrames (g :: fs)).dates ↔ ∃ f ∈ g :: fs, d ∈ f.dates)
    ∧ (∀ d, rowVals (alignFrames (g :: fs)) d =
        ((g :: fs).map (fun f => rowVals f d)).flatten) := by
  obtain ⟨hwf, hmem, hvals⟩ := foldl_merge2_spec fs g hg hfs
  have hsort : alignFrames (g :: fs) = fs.foldl merge2 g := by
    unfold alignFrames
    exact sortValues_of_sorted hwf.2
  refine ⟨hsort ▸ hwf, ?_, ?_⟩
  · intro d
    rw [hsort, hmem d]
    constructor
    · rintro (h | ⟨f, hf, h⟩)
      · exact ⟨g, by simp, h⟩
      · exact ⟨f, List.mem_cons_of_mem g hf, h⟩
    · rintro ⟨f, hf, h⟩
      rcases List.mem_cons.mp hf with rfl | hf2
      · exact Or.inl h
      · exact Or.inr ⟨f, hf2, h⟩
  · intro d
    rw [hsort, hvals d, List.map_cons, List.flatten_cons]

/-- C1: For every non-empty list of well-formed input series frames, the
aligner (the chained `pd.merge(..., on="date", how="outer")` followed by
`sort_values("date")`) produces a table whose date set is exactly the union
of the dates of all input frames; the rows are in strictly ascending date
order; and the row at any date of the union is present and consists of each
input's values at that date, an input missing that date contributing one
null per column rather than dropping the row. -/
theorem align_outer_join_C1 (dfs : List (Frame ℚ)) (hne : dfs ≠ [])
    (hwf : ∀ f ∈ dfs, f.WF) :
    (∀ d, d ∈ (alignFrames dfs).dates ↔ ∃ f ∈ dfs, d ∈ f.dates)
    ∧ (alignFrames dfs).dates.Pairwise dlt
    ∧ ∀ d ∈ (alignFrames dfs).dates,
        rowAt (alignFrames dfs) d =
          some ((dfs.map (fun f => rowVals f d)).flatten) := by
  cases dfs with
  | nil => exact absurd rfl hne
  | cons g fs =>
    obtain ⟨hwf2, hmem, hvals⟩ := alignFrames_spec g fs (hwf g (by simp))
      (fun f hf => hwf f (List.mem_cons_of_mem g hf))
    refine ⟨hmem, hwf2.2, ?_⟩
    intro d hd
    rw [rowAt_eq_some_rowVals hwf2 hd, hvals d]

/-- The rational 3/2 = 1.5 as an explicit reduced fraction (a form the
kernel evaluates directly). -/
def q32 : ℚ := ⟨3, 2, by decide, by decide⟩

/-- The `Rate` series of the end-to-end example in the spec. -/
def exRate : Frame ℚ :=
  { cols := ["Rate"],
    rows := [(⟨2020, 1, 1⟩, [some 1]), (⟨2020, 2, 1⟩, [some q32])] }

/-- The `Unemp` series of the end-to-end example in the spec. -/
def exUnemp : Frame ℚ :=
  { cols := ["Unemp"], rows := [(⟨2020, 1, 1⟩, [some 5])] }

/-- Witness for C1 at the spec's end-to-end example: the aligned table is
ascending and its 2020-02-01 row keeps Rate's value and holds a null for
Unemp. -/
theorem align_outer_join_C1_witness :
    (alignFrames [exRate, exUnemp]).dates.Pairwise dlt
    ∧ rowAt (alignFrames [exRate, exUnemp]) ⟨2020, 2, 1⟩ =
        some [some q32, none] := by
  have h := align_outer_join_C1 [exRate, exUnemp] (by decide) (by decide)
  refine ⟨h.2.1, ?_⟩
  rw [h.2.2 ⟨2020, 2, 1⟩ (by decide)]
  decide

/-- Same display name as `exRate`, different contents. -/
def exRate2 : Frame ℚ :=
  { cols := ["Rate"], rows := [(⟨2020, 1, 1⟩, [some 7])] }

/-- Counterexample to C5: aligning two series that share the display name
`Rate` raises nothing — no `DuplicateColumnError` exists anywhere in the
code — and produces a table whose colliding columns have been silently
renamed with pandas' `_x`/`_y` merge suffixes. -/
theorem align_duplicate_name_C5_counterexample :
    (alignFrames [exRate, exRate2]).cols = ["Rate_x", "Rate_y"]
    ∧ (alignFrames [exRate, exRate2]).rows ≠ [] := by
  constructor <;> decide

/-- C5 (amended): aligning two well-formed single-column series that share
the display name `n` does not fail; it returns a table whose columns are
`n_x` and `n_y` (pandas merge suffixes), both series' data preserved under
the renamed columns. -/
theorem align_duplicate_name_C5 (l r : Frame ℚ) (n : String)
    (hl : l.WF) (hr : r.WF) (hlc : l.cols = [n]) (hrc : r.cols = [n]) :
    (alignFrames [l, r]).cols = [n ++ "_x", n ++ "_y"]
    ∧ ∀ d ∈ (alignFrames [l, r]).dates,
        rowAt (alignFrames [l, r]) d = some (rowVals l d ++ rowVals r d) := by
  obtain ⟨hwf2, hmem, hvals⟩ := alignFrames_spec l [r] hl
    (by intro f hf; rcases List.mem_cons.mp hf with rfl | hf2
        · exact hr
        · cases hf2)
  constructor
  · show (merge2 l r).cols = [n ++ "_x", n ++ "_y"]
    simp [merge2, suffixLeft, suffixRight, hlc, hrc]
  · intro d hd
    rw [rowAt_eq_some_rowVals hwf2 hd, hvals d]
    simp

/-- Witness for the amended C5: the two colliding `Rate` columns come out
as `Rate_x` and `Rate_y` with both series' 2020-01-01 values intact. -/
theorem align_duplicate_name_C5_witness :
    (alignFrames [exRate, exRate2]).cols = ["Rate" ++ "_x", "Rate" ++ "_y"]
    ∧ rowAt (alignFrames [exRate, exRate2]) ⟨2020, 1, 1⟩ =
        some [some 1, some 7] := by
  have h := align_duplicate_name_C5 exRate exRate2 "Rate"
    (by decide) (by decide) rfl rfl
  refine ⟨h.1, ?_⟩
  rw [h.2 ⟨2020, 1, 1⟩ (by decide)]
  decide

/-- Zero-padded two-digit rendering of a month or day number. -/
def pad2 (n : Nat) : String :=
  if n < 10 then "0" ++ toString n else toString n

/-- Zero-padded four-digit rendering of a year number. -/
def pad4 (n : Nat) : String :=
  if n < 10 then "000" ++ toString n
  else if n < 100 then "00" ++ toString n
  else if n < 1000 then "0" ++ toString n
  else toString n

/-- ISO-8601 `YYYY-MM-DD` rendering of a date — how pandas `to_csv` renders
a datetime column whose times are all midnight. -/
def Date.iso (d : Date) : String :=
  pad4 d.y ++ "-" ++ pad2 d.m ++ "-" ++ pad2 d.d

/-- `csv = df.to_csv(index=False)` (app.py line 162): a header line `date`
plus the column names, then one comma-separated line per row in frame
order; a null renders as an empty field; the decimal rendering of a float
value (a rational in the aligned table, a real in the normalized one) is
abstracted as `render`. -/
def toCsv {α : Type} (render : α → String) (f : Frame α) : String :=
  String.intercalate "," ("date" :: f.cols) ++ "\n" ++
    String.join (f.rows.map (fun r =>
      String.intercalate ","
        (r.1.iso :: r.2.map (fun v => (v.map render).getD "")) ++ "\n"))

/-- The union of the date sets of a list of frames, ascending. -/
def unionDates {α : Type} (dfs : List (Frame α)) : List Date :=
  dfs.foldr (fun f acc => mergeUnion f.dates acc) []

theorem unionDates_pairwise {α : Type} (dfs : List (Frame α))
    (hwf : ∀ f ∈ dfs, f.WF) : (unionDates dfs).Pairwise dlt := by
  induction dfs with
  | nil => exact List.Pairwise.nil
  | cons g gs ih =>
    exact mergeUnion_pairwise g.dates (unionDates gs) (hwf g (by simp)).2
      (ih fun f hf => hwf f (List.mem_cons_of_mem g hf))

theorem mem_unionDates {α : Type} (a : Date) (dfs : List (Frame α)) :
    a ∈ unionDates dfs ↔ ∃ f ∈ dfs, a ∈ f.dates := by
  induction dfs with
  | nil => simp [unionDates]
  | cons g gs ih =>
    show a ∈ mergeUnion g.dates (unionDates gs) ↔ _
    rw [mem_mergeUnion, ih]
    simp

theorem rows_eq_map_rowVals {α : Type} {f : Frame α} (hf : f.WF) :
    f.dates.map (fun d => (d, rowVals f d)) = f.rows := by
  unfold Frame.dates
  rw [List.map_map]
  have h : ∀ r ∈ f.rows, ((fun d => (d, rowVals f d)) ∘ Prod.fst) r = id r := by
    intro r hr
    have h2 : rowAt f r.1 = some r.2 :=
      rowAt_of_mem (pairwise_dlt_nodup hf.2) (by simpa using hr)
    show (r.1, rowVals f r.1) = r
    rw [rowVals, h2]
    rfl
  rw [List.map_congr_left h, List.map_id]

theorem suffixLeft_of_disjoint {l r : List String} (h : ∀ c ∈ l, c ∉ r) :
    suffixLeft l r = l := by
  unfold suffixLeft
  have h2 : ∀ c ∈ l, (fun c => if c ∈ r then c ++ "_x" else c) c = id c :=
    fun c hc => if_neg (h c hc)
  rw [List.map_congr_left h2, List.map_id]

theorem suffixRight_of_disjoint {l r : List String} (h : ∀ c ∈ l, c ∉ r) :
    suffixRight l r = r := by
  unfold suffixRight
  have h2 : ∀ c ∈ r, (fun c => if c ∈ l then c ++ "_y" else c) c = id c :=
    fun c hc => if_neg (fun hcl => h c hcl hc)
  rw [List.map_congr_left h2, List.map_id]

theorem foldl_merge2_cols {α : Type} :
    ∀ (fs : List (Frame α)) (acc : Frame α),
      (acc.cols ++ fs.flatMap Frame.cols).Nodup →
      (fs.foldl merge2 acc).cols = acc.cols ++ fs.flatMap Frame.cols := by
  intro fs
  induction fs with
  | nil => intro acc _; simp
  | cons g gs ih =>
    intro acc hnd
    have hnd2 : ((acc.cols ++ g.cols) ++ gs.flatMap Frame.cols).Nodup := by
      rw [List.append_assoc]
      simpa [List.flatMap_cons] using hnd
    have hdisj : ∀ c ∈ acc.cols, c ∉ g.cols := by
      rcases List.nodup_append.mp hnd with ⟨_, _, hdis⟩
      intro c hc hcg
      exact hdis hc (by simp [List.flatMap_cons, hcg])
    have hcols : (merge2 acc g).cols = acc.cols ++ g.cols := by
      show suffixLeft acc.cols g.cols ++ suffixRight acc.cols g.cols = _
      rw [suffixLeft_of_disjoint hdisj, suffixRight_of_disjoint hdisj]
    show (gs.foldl merge2 (merge2 acc g)).cols = _
    rw [ih (merge2 acc g) (hcols ▸ hnd2), hcols, List.append_assoc,
      List.flatMap_cons]

/-- csvSpec is the CSV layout in the words of the spec (§6 and the §8
end-to-end example), built directly from the input series: header row
`date` followed by each column name in input order, one data row per date
of the sorted union in ascending order, nulls as empty fields, ISO-8601
dates. -/
def csvSpec (render : ℚ → String) (dfs : List (Frame ℚ)) : String :=
  String.intercalate "," ("date" :: dfs.flatMap Frame.cols) ++ "\n" ++
    String.join ((unionDates dfs).map (fun d =>
      String.intercalate ","
        (d.iso :: ((dfs.map (fun f => rowVals f d)).flatten).map
          (fun v => (v.map render).getD "")) ++ "\n"))

/-- The aligned half of the CSV export contract: `to_csv(index=False)` of
the aligned table is exactly the spec's CSV layout — header `date` plus the
column names in table order, one line per union date in ascending order,
nulls empty, dates ISO-8601. -/
theorem toCsv_alignFrames (render : ℚ → String) (dfs : List (Frame ℚ))
    (hne : dfs ≠ []) (hwf : ∀ f ∈ dfs, f.WF)
    (hnames : (dfs.flatMap Frame.cols).Nodup) :
    toCsv render (alignFrames dfs) = csvSpec render dfs := by
  cases dfs with
  | nil => exact absurd rfl hne
  | cons g fs =>
    obtain ⟨hwf2, hmem, hvals⟩ := alignFrames_spec g fs (hwf g (by simp))
      (fun f hf => hwf f (List.mem_cons_of_mem g hf))
    have hdates : (alignFrames (g :: fs)).dates = unionDates (g :: fs) :=
      sorted_ext _ _ hwf2.2
        (unionDates_pairwise _ hwf)
        (fun a => by rw [hmem a, mem_unionDates])
    have hcols : (alignFrames (g :: fs)).cols = (g :: fs).flatMap Frame.cols := by
      show (fs.foldl merge2 g).cols = _
      rw [foldl_merge2_cols fs g (by simpa [List.flatMap_cons] using hnames),
        List.flatMap_cons]
    have hrows : (alignFrames (g :: fs)).rows.map
        (fun r => String.intercalate ","
          (r.1.iso :: r.2.map (fun v => (v.map render).getD "")) ++ "\n")
        = (unionDates (g :: fs)).map (fun d => String.intercalate ","
          (d.iso :: (((g :: fs).map (fun f => rowVals f d)).flatten).map
            (fun v => (v.map render).getD "")) ++ "\n") := by
      rw [← rows_eq_map_rowVals hwf2, List.map_map, ← hdates]
      apply List.map_congr_left
      intro d hd
      simp only [Function.comp_apply]
      rw [hvals d]
    unfold toCsv csvSpec
    rw [hcols, hrows]

/-- A float renderer agreeing with Python float repr on the values of the
spec's end-to-end example. -/
def renderEx : ℚ → String := fun q =>
  if q = 1 then "1.0" else if q = q32 then "1.5" else if q = 5 then "5.0"
  else ""

/-- A pandas float cell as produced by `pct_change`: NaN (missing), a
finite value, or a signed infinity (IEEE float division of a nonzero
numerator by zero). -/
inductive PVal where
  | nan : PVal
  | fin : ℚ → PVal
  | pinf : PVal
  | ninf : PVal
deriving DecidableEq

/-- One cell of `s.pct_change(periods=k) * 100` under IEEE float
semantics for `(cur - prev) / prev * 100`: NaN when either operand is
missing, a signed infinity when `prev == 0` and `cur` is nonzero, NaN for
`0/0`. -/
def pctCell (prev cur : Option ℚ) : PVal :=
  match prev, cur with
  | some p, some c =>
    if p = 0 then
      if c = 0 then PVal.nan
      else if 0 < c then PVal.pinf else PVal.ninf
    else PVal.fin ((c - p) / p * 100)
  | _, _ => PVal.nan

/-- `df[col].pct_change(periods=k) * 100` (app.py lines 106 and 110) on the
value column `xs`, with `fill_method=None` (the current pandas default:
missing values propagate instead of being forward-filled): output `i` is
NaN for `i < k` (no observation `k` periods earlier) and otherwise compares
`xs[i]` against `xs[i-k]`. -/
def pctChange100 (k : Nat) (xs : List (Option ℚ)) : List PVal :=
  (List.range xs.length).map (fun i =>
    pctCell (if i < k then none else (xs[i - k]?).getD none)
      ((xs[i]?).getD none))

theorem pctChange100_get (k : Nat) (xs : List (Option ℚ)) (i : Nat)
    (h : i < xs.length) :
    (pctChange100 k xs)[i]? = some (pctCell
      (if i < k then none else (xs[i - k]?).getD none)
      ((xs[i]?).getD none)) := by
  unfold pctChange100
  rw [List.getElem?_map, List.getElem?_range h]
  rfl

/-- Counterexample to C2 as stated: with lag 1 and input values `[0, 1]`,
the output at index 1 is positive infinity (float `1/0`), not null. -/
theorem pct_change_C2_counterexample :
    pctChange100 1 [some 0, some 1] = [PVal.nan, PVal.pinf]
    ∧ PVal.pinf ≠ PVal.nan := by
  constructor <;> decide

/-- C2 (amended): for every series and lag `k ≥ 1`, the percent-change
column has one output per input observation; outputs at indices below `k`
are null; for `i ≥ k` with both values present and `xs[i-k] ≠ 0` the output
is `(xs[i] - xs[i-k]) / xs[i-k] * 100`; a missing `xs[i]` or `xs[i-k]`
propagates null; but a zero denominator yields a signed infinity according
to the sign of `xs[i]` (NaN only when `xs[i]` is zero too), not null. -/
theorem pct_change_C2 (k : Nat) (xs : List (Option ℚ)) (_hk : 1 ≤ k) :
    (pctChange100 k xs).length = xs.length
    ∧ (∀ i, i < k → i < xs.length →
        (pctChange100 k xs)[i]? = some PVal.nan)
    ∧ (∀ i c p, k ≤ i → xs[i]? = some (some c) → xs[i - k]? = some (some p) →
        p ≠ 0 →
        (pctChange100 k xs)[i]? = some (PVal.fin ((c - p) / p * 100)))
    ∧ (∀ i, k ≤ i → i < xs.length →
        ((xs[i]?).getD none = none ∨ (xs[i - k]?).getD none = none) →
        (pctChange100 k xs)[i]? = some PVal.nan)
    ∧ (∀ i c, k ≤ i → xs[i]? = some (some c) → xs[i - k]? = some (some 0) →
        (pctChange100 k xs)[i]? = some (if c = 0 then PVal.nan
          else if 0 < c then PVal.pinf else PVal.ninf)) := by
  refine ⟨by simp [pctChange100], ?_, ?_, ?_, ?_⟩
  · intro i hik hlen
    rw [pctChange100_get k xs i hlen]
    simp [pctCell, hik]
  · intro i c p hki hxi hxk hp
    have hlen : i < xs.length := (List.getElem?_eq_some.mp hxi).1
    rw [pctChange100_get k xs i hlen, if_neg (by omega), hxi, hxk]
    simp [pctCell, hp]
  · intro i hki hlen hnone
    rw [pctChange100_get k xs i hlen, if_neg (by omega)]
    rcases hnone with h | h <;> rw [h] <;> cases hpk : (xs[i - k]?).getD none
      <;> cases hc : (xs[i]?).getD none <;> simp_all [pctCell]
  · intro i c hki hxi hxk
    have hlen : i < xs.length := (List.getElem?_eq_some.mp hxi).1
    rw [pctChange100_get k xs i hlen, if_neg (by omega), hxi, hxk]
    simp [pctCell]

/-- Witness for the amended C2 at a concrete quarterly series with lag 4:
index 3 is null (insufficient history), index 4 is the year-over-year
percent change of 110 against 100. -/
theorem pct_change_C2_witness :
    (pctChange100 4 [some 100, some 102, some 104, some 106, some 110]).length = 5
    ∧ (pctChange100 4 [some 100, some 102, some 104, some 106, some 110])[3]?
        = some PVal.nan
    ∧ (pctChange100 4 [some 100, some 102, some 104, some 106, some 110])[4]?
        = some (PVal.fin ((110 - 100) / 100 * 100)) := by
  have h := pct_change_C2 4 [some 100, some 102, some 104, some 106, some 110]
    (by decide)
  exact ⟨h.1, h.2.1 3 (by decide) (by decide),
    h.2.2.1 4 110 100 (by decide) (by decide) (by decide) (by decide)⟩

/-- The non-null values of a column (pandas `mean()` and `std()` default to
`skipna=True`). -/
def nnVals (col : List (Option ℚ)) : List ℚ := col.filterMap id

/-- `Series.mean()` over the non-null values. -/
def colMean (vals : List ℚ) : ℚ := vals.sum / (vals.length : ℚ)

/-- Sum of squared deviations from the mean. -/
def sumSqDev (vals : List ℚ) : ℚ :=
  (vals.map (fun x => (x - colMean vals) ^ 2)).sum

/-- The square of `Series.std()`: pandas `std()` defaults to `ddof=1`, the
sample variance `sumSqDev / (n - 1)`. (For `n ≤ 1` pandas yields NaN where
this rational division by zero gives 0; `zscoreEntry` maps both cases to an
all-null output column, matching the float result.) -/
def varQ (vals : List ℚ) : ℚ := sumSqDev vals / ((vals.length : ℚ) - 1)

/-- `Series.std()` itself. -/
noncomputable def stdDivisor (vals : List ℚ) : ℝ := Real.sqrt ((varQ vals : ℝ))

/-- One cell of `(df_z[col] - df_z[col].mean()) / df_z[col].std()` (app.py
line 374). When the std is 0 or NaN (a constant column, or at most one
observation), the cell's numerator `x - mean` is 0, so the float division
yields NaN for the whole column; modelled as `none`. -/
noncomputable def zscoreEntry (vals : List ℚ) (x : ℚ) : Option ℝ :=
  if varQ vals = 0 then none
  else some (((x : ℝ) - (colMean vals : ℝ)) / stdDivisor vals)

/-- One column of the z-score block: nulls stay null, present values are
standardized against the column's own non-null mean and std. -/
noncomputable def zscoreCol (col : List (Option ℚ)) : List (Option ℝ) :=
  col.map (fun v => v.bind (fun x => zscoreEntry (nnVals col) x))

/-- Column `j` of a frame, in row order. -/
def colOf {α : Type} (f : Frame α) (j : Nat) : List (Option α) :=
  f.rows.map (fun r => (r.2[j]?).getD none)

/-- The z-score block (app.py lines 370-375): `for col in df.columns: if
col != "date": df_z[col] = (df_z[col] - df_z[col].mean()) / df_z[col].std()`
— every value column replaced by its z-scores, dates and column names
unchanged. -/
noncomputable def zscoreTable (f : Frame ℚ) : Frame ℝ :=
  { cols := f.cols,
    rows := (List.range f.rows.length).map (fun i =>
      (((f.rows[i]?).map Prod.fst).getD ⟨0, 0, 0⟩,
        (List.range f.cols.length).map (fun j =>
          ((zscoreCol (colOf f j))[i]?).getD none))) }

theorem range_map_getD {β : Type} (l : List β) (x : β) :
    (List.range l.length).map (fun i => (l[i]?).getD x) = l := by
  apply List.ext_getElem?
  intro i
  rw [List.getElem?_map]
  by_cases h : i < l.length
  · rw [List.getElem?_range h]
    simp [List.getElem?_eq_getElem h]
  · have h2 : l.length ≤ i := Nat.le_of_not_lt h
    rw [List.getElem?_eq_none (by simpa using h2), List.getElem?_eq_none h2]
    rfl

theorem colOf_zscoreTable {f : Frame ℚ} {j : Nat}
    (hj : j < f.cols.length) :
    colOf (zscoreTable f) j = zscoreCol (colOf f j) := by
  have hlen : (zscoreCol (colOf f j)).length = f.rows.length := by
    simp [zscoreCol, colOf]
  calc colOf (zscoreTable f) j
      = (List.range f.rows.length).map
          (fun i => ((zscoreCol (colOf f j))[i]?).getD none) := by
        unfold colOf zscoreTable
        rw [List.map_map]
        apply List.map_congr_left
        intro i hi
        simp only [Function.comp_apply]
        rw [List.getElem?_map, List.getElem?_range hj]
        rfl
    _ = zscoreCol (colOf f j) := by
        rw [← hlen]
        exact range_map_getD _ none

theorem sumSqDev_nonneg (vals : List ℚ) : 0 ≤ sumSqDev vals := by
  unfold sumSqDev
  apply List.sum_nonneg
  intro x hx
  rcases List.mem_map.mp hx with ⟨a, _, rfl⟩
  positivity

theorem varQ_nonneg (vals : List ℚ) : 0 ≤ varQ vals := by
  unfold varQ
  rcases Nat.eq_zero_or_pos vals.length with h | h
  · have hv : vals = [] := List.length_eq_zero.mp h
    subst hv
    norm_num [sumSqDev]
  · apply div_nonneg (sumSqDev_nonneg vals)
    have h2 : (1 : ℚ) ≤ (vals.length : ℚ) := by exact_mod_cast h
    linarith

/-- Counterexample to C3: for the spec's own test column `[1,2,3,4,5]` the
square of the code's z-score divisor is `5/2` (sum of squared deviations 10
divided by `n-1 = 4`), which differs from the population variance
`10 / 5 = 2` the claim mandates. -/
theorem zscore_divisor_C3_counterexample :
    (stdDivisor [1, 2, 3, 4, 5]) ^ 2 = 5 / 2
    ∧ (stdDivisor [1, 2, 3, 4, 5]) ^ 2
        ≠ (sumSqDev [1, 2, 3, 4, 5] : ℝ)
            / (([1, 2, 3, 4, 5] : List ℚ).length : ℝ) := by
  have hm : colMean [1, 2, 3, 4, 5] = 3 := by
    norm_num [colMean]
  have hs : sumSqDev [1, 2, 3, 4, 5] = 10 := by
    norm_num [sumSqDev, hm]
  have hv : varQ [1, 2, 3, 4, 5] = 5 / 2 := by
    norm_num [varQ, hs]
  have h1 : (stdDivisor [1, 2, 3, 4, 5]) ^ 2 = 5 / 2 := by
    rw [stdDivisor, hv, Real.sq_sqrt (by positivity)]
    push_cast
    ring
  refine ⟨h1, ?_⟩
  rw [h1, hs]
  norm_num

/-- C3 (amended): for every column, the square of the z-score divisor the
code uses equals the sample variance of the column's non-null values — the
sum of squared deviations divided by (count − 1), not by count. -/
theorem zscore_divisor_C3 (col : List (Option ℚ)) :
    (stdDivisor (nnVals col)) ^ 2
      = (sumSqDev (nnVals col) : ℝ) / (((nnVals col).length : ℝ) - 1) := by
  rw [stdDivisor, Real.sq_sqrt (by exact_mod_cast varQ_nonneg (nnVals col))]
  rw [varQ]
  push_cast
  ring

theorem colMean_replicate {n : Nat} (hn : n ≠ 0) (a : ℚ) :
    colMean (List.replicate n a) = a := by
  unfold colMean
  rw [List.sum_replicate, List.length_replicate, nsmul_eq_mul]
  have h2 : (n : ℚ) ≠ 0 := Nat.cast_ne_zero.mpr hn
  field_simp

theorem sumSqDev_replicate (n : Nat) (a : ℚ) :
    sumSqDev (List.replicate n a) = 0 := by
  cases n with
  | zero => simp [sumSqDev]
  | succ m =>
    unfold sumSqDev
    rw [colMean_replicate (Nat.succ_ne_zero m) a, List.map_replicate]
    simp

/-- The two-column example table of the spec's zero-variance test: column A
is the constant `[3,3,3]`, sibling column B is `[1,2,3]`. -/
def exC4 : Frame ℚ :=
  { cols := ["A", "B"],
    rows := [(⟨2020, 1, 1⟩, [some 3, some 1]),
             (⟨2020, 2, 1⟩, [some 3, some 2]),
             (⟨2020, 3, 1⟩, [some 3, some 3])] }

/-- Counterexample to C4: on the zero-variance column `A = [3,3,3]` the
code raises nothing — no `ZeroVarianceError` exists in the code — and
normalization silently returns a table whose column A is entirely null (the
float division 0/0 is NaN) while sibling column B is normalized as usual. -/
theorem zscore_zero_variance_C4_counterexample :
    colOf (zscoreTable exC4) 0 = [none, none, none]
    ∧ colOf (zscoreTable exC4) 1 = [some (-1), some 0, some 1] := by
  have hA : colOf exC4 0 = [some 3, some 3, some 3] := by decide
  have hB : colOf exC4 1 = [some 1, some 2, some 3] := by decide
  have hnA : nnVals [some 3, some 3, some 3] = [3, 3, 3] := by decide
  have hnB : nnVals [some 1, some 2, some 3] = [1, 2, 3] := by decide
  have hmA : colMean [3, 3, 3] = 3 := by norm_num [colMean]
  have hsdA : sumSqDev [3, 3, 3] = 0 := by norm_num [sumSqDev, hmA]
  have hvA : varQ (nnVals [some 3, some 3, some 3]) = 0 := by
    rw [hnA, varQ, hsdA, zero_div]
  have hmB : colMean [1, 2, 3] = 2 := by norm_num [colMean]
  have hsdB : sumSqDev [1, 2, 3] = 2 := by norm_num [sumSqDev, hmB]
  have hvB2 : varQ [1, 2, 3] = 1 := by
    rw [varQ, hsdB]
    norm_num
  have hsB2 : stdDivisor [1, 2, 3] = 1 := by
    rw [stdDivisor, hvB2]
    simp
  constructor
  · rw [colOf_zscoreTable (by decide), hA]
    simp [zscoreCol, zscoreEntry, hvA]
  · rw [colOf_zscoreTable (by decide), hB]
    norm_num [zscoreCol, zscoreEntry, hnB, hmB, hvB2, hsB2]

/-- C4 (amended): normalization never signals an error. A column whose
non-null values are all identical comes out entirely null (float `0/0` is
NaN, silently), while every sibling column with nonzero variance is
normalized cell by cell to `(x - mean) / std`. -/
theorem zscore_zero_variance_C4 (f : Frame ℚ) (j : Nat)
    (hj : j < f.cols.length)
    (hconst : ∀ x ∈ nnVals (colOf f j), ∀ y ∈ nnVals (colOf f j), x = y) :
    (∀ (i : Nat) (v : Option ℝ), (colOf (zscoreTable f) j)[i]? = some v →
        v = none)
    ∧ (∀ j2, j2 < f.cols.length → varQ (nnVals (colOf f j2)) ≠ 0 →
        ∀ (i : Nat) (x : ℚ), (colOf f j2)[i]? = some (some x) →
          (colOf (zscoreTable f) j2)[i]? = some (some
            (((x : ℝ) - (colMean (nnVals (colOf f j2)) : ℝ))
              / stdDivisor (nnVals (colOf f j2))))) := by
  constructor
  · intro i v hv
    have hv2 : v ∈ colOf (zscoreTable f) j := List.getElem?_mem hv
    rw [colOf_zscoreTable hj] at hv2
    rcases List.mem_map.mp hv2 with ⟨w, hw, rfl⟩
    cases w with
    | none => rfl
    | some x =>
      have hx : x ∈ nnVals (colOf f j) :=
        List.mem_filterMap.mpr ⟨some x, hw, rfl⟩
      have hrep : nnVals (colOf f j)
          = List.replicate (nnVals (colOf f j)).length x :=
        List.eq_replicate_of_mem (fun b hb => hconst b hb x hx)
      have hvar : varQ (nnVals (colOf f j)) = 0 := by
        rw [hrep, varQ, sumSqDev_replicate, zero_div]
      show (some x).bind (fun y => zscoreEntry (nnVals (colOf f j)) y) = none
      simp [zscoreEntry, hvar]
  · intro j2 hj2 hvar i x hx
    rw [colOf_zscoreTable hj2]
    show (List.map (fun v => v.bind
      (fun y => zscoreEntry (nnVals (colOf f j2)) y)) (colOf f j2))[i]? = _
    rw [List.getElem?_map, hx]
    simp [zscoreEntry, hvar]

/-- Witness for the amended C4 at `exC4`: column A's second entry is null,
and column B's first entry is the z-score `(1 - 2)/1 = -1`. -/
theorem zscore_zero_variance_C4_witness :
    (colOf (zscoreTable exC4) 0)[1]? = some none
    ∧ (colOf (zscoreTable exC4) 1)[0]? = some (some ((-1 : ℝ))) := by
  have h := zscore_zero_variance_C4 exC4 0 (by decide) (by decide)
  have hB : colOf exC4 1 = [some 1, some 2, some 3] := by decide
  have hnB : nnVals [some 1, some 2, some 3] = [1, 2, 3] := by decide
  have hm2 : colMean [1, 2, 3] = 2 := by norm_num [colMean]
  have hsd2 : sumSqDev [1, 2, 3] = 2 := by norm_num [sumSqDev, hm2]
  have hmB : colMean (nnVals (colOf exC4 1)) = 2 := by
    rw [hB, hnB]
    exact hm2
  have hvB : varQ (nnVals (colOf exC4 1)) = 1 := by
    rw [hB, hnB, varQ, hsd2]
    norm_num
  have hsB : stdDivisor (nnVals (colOf exC4 1)) = 1 := by
    rw [stdDivisor, hvB]
    simp
  have hlen : (colOf (zscoreTable exC4) 0).length = 3 := by
    rw [colOf_zscoreTable (by decide)]
    simp [zscoreCol, colOf, exC4]
  obtain ⟨v, hv⟩ : ∃ v, (colOf (zscoreTable exC4) 0)[1]? = some v := by
    rw [List.getElem?_eq_getElem (by omega)]
    exact ⟨_, rfl⟩
  constructor
  · rw [hv, h.1 1 v hv]
  · rw [h.2 1 (by decide) (by rw [hvB]; norm_num) 0 1 (by rw [hB]; rfl),
      hmB, hsB]
    norm_num

/-- The spec's CSV layout for the normalized table `zscoreTable t`: header
row `date` followed by the table's column names in order, one data row per
date of the table in table order, each cell the rendered z-score of that
row and column (or an empty field when null), dates rendered ISO-8601. -/
noncomputable def csvSpecNorm (render : ℝ → String) (t : Frame ℚ) : String :=
  String.intercalate "," ("date" :: t.cols) ++ "\n" ++
    String.join ((List.range t.rows.length).map (fun i =>
      String.intercalate ","
        (((t.dates[i]?).getD ⟨0, 0, 0⟩).iso ::
          (List.range t.cols.length).map (fun j =>
            ((((zscoreCol (colOf t j))[i]?).getD none).map render).getD ""))
        ++ "\n"))

theorem zscoreTable_dates (t : Frame ℚ) :
    (zscoreTable t).dates = t.dates := by
  have h3 := range_map_getD (t.rows.map Prod.fst) (⟨0, 0, 0⟩ : Date)
  rw [List.length_map] at h3
  show (zscoreTable t).rows.map Prod.fst = _
  unfold zscoreTable
  rw [List.map_map]
  have h : ∀ i ∈ List.range t.rows.length,
      (Prod.fst ∘ (fun i => (((t.rows[i]?).map Prod.fst).getD ⟨0, 0, 0⟩,
        (List.range t.cols.length).map (fun j =>
          ((zscoreCol (colOf t j))[i]?).getD none)))) i
        = (fun i => ((t.rows.map Prod.fst)[i]?).getD ⟨0, 0, 0⟩) i := by
    intro i _
    simp only [Function.comp_apply]
    rw [List.getElem?_map]
  rw [List.map_congr_left h, h3]
  rfl

/-- The normalized half of the CSV export contract: `to_csv(index=False)`
of the z-scored table follows the same layout, one line per row of the
underlying table with the rendered z-scores as cells. -/
theorem toCsv_zscoreTable (render : ℝ → String) (t : Frame ℚ) :
    toCsv render (zscoreTable t) = csvSpecNorm render t := by
  unfold toCsv csvSpecNorm
  have hrows : (zscoreTable t).rows.map (fun r =>
      String.intercalate ","
        (r.1.iso :: r.2.map (fun v => (v.map render).getD "")) ++ "\n")
      = (List.range t.rows.length).map (fun i =>
        String.intercalate ","
          (((t.dates[i]?).getD ⟨0, 0, 0⟩).iso ::
            (List.range t.cols.length).map (fun j =>
              ((((zscoreCol (colOf t j))[i]?).getD none).map render).getD ""))
          ++ "\n") := by
    show ((List.range t.rows.length).map _).map _ = _
    rw [List.map_map]
    apply List.map_congr_left
    intro i _
    simp only [Function.comp_apply]
    rw [List.map_map]
    have hd : (t.dates[i]?) = (t.rows[i]?).map Prod.fst := by
      unfold Frame.dates
      rw [List.getElem?_map]
    rw [hd]
    rfl
  rw [hrows]
  rfl

/-- C8: For every non-empty list of well-formed input series with pairwise
distinct column names and every float renderer, CSV serialization has the
claimed layout for both the aligned table and the normalized table:
`to_csv(index=False)` of the aligned table is exactly the spec's CSV layout
(header `date` plus the column names in table order, one data row per union
date in ascending order, nulls empty, dates ISO-8601), and the normalized
table keeps the aligned table's column names and its ascending union date
column unchanged and serializes under the same layout, each cell the
rendered z-score or an empty field when null. -/
theorem to_csv_C8 (render : ℚ → String) (renderR : ℝ → String)
    (dfs : List (Frame ℚ)) (hne : dfs ≠ []) (hwf : ∀ f ∈ dfs, f.WF)
    (hnames : (dfs.flatMap Frame.cols).Nodup) :
    toCsv render (alignFrames dfs) = csvSpec render dfs
    ∧ (zscoreTable (alignFrames dfs)).cols = (alignFrames dfs).cols
    ∧ (zscoreTable (alignFrames dfs)).dates = (alignFrames dfs).dates
    ∧ toCsv renderR (zscoreTable (alignFrames dfs))
        = csvSpecNorm renderR (alignFrames dfs) :=
  ⟨toCsv_alignFrames render dfs hne hwf hnames, rfl,
    zscoreTable_dates (alignFrames dfs),
    toCsv_zscoreTable renderR (alignFrames dfs)⟩

/-- A one-column ascending series whose z-scores come out integral. -/
def exZ : Frame ℚ :=
  { cols := ["B"],
    rows := [(⟨2020, 1, 1⟩, [some 1]), (⟨2020, 2, 1⟩, [some 2]),
             (⟨2020, 3, 1⟩, [some 3])] }

/-- A renderer agreeing with Python float repr on the z-scores of `exZ`. -/
noncomputable def renderZ : ℝ → String := fun x =>
  if x = -1 then "-1.0" else if x = 0 then "0.0" else if x = 1 then "1.0"
  else ""

/-- The z-scored `exZ`, written out. -/
def exZn : Frame ℝ :=
  { cols := ["B"],
    rows := [(⟨2020, 1, 1⟩, [some (-1)]), (⟨2020, 2, 1⟩, [some 0]),
             (⟨2020, 3, 1⟩, [some 1])] }

/-- Witness for C8: at the spec's end-to-end example the aligned CSV equals
the spec layout and is the exact string the spec displays; normalizing the
one-column table `exZ` keeps its dates and serializes to the exact expected
CSV string. -/
theorem to_csv_C8_witness :
    toCsv renderEx (alignFrames [exRate, exUnemp])
      = csvSpec renderEx [exRate, exUnemp]
    ∧ toCsv renderEx (alignFrames [exRate, exUnemp])
      = "date,Rate,Unemp\n2020-01-01,1.0,5.0\n2020-02-01,1.5,\n"
    ∧ toCsv renderZ (zscoreTable (alignFrames [exZ]))
      = csvSpecNorm renderZ (alignFrames [exZ])
    ∧ toCsv renderZ (zscoreTable (alignFrames [exZ]))
      = "date,B\n2020-01-01,-1.0\n2020-02-01,0.0\n2020-03-01,1.0\n" := by
  have h1 := to_csv_C8 renderEx renderZ [exRate, exUnemp] (by decide)
    (by decide) (by decide)
  have h2 := to_csv_C8 renderEx renderZ [exZ] (by decide) (by decide)
    (by decide)
  have halign : alignFrames [exZ] = exZ := by decide
  have hcolZ : colOf exZ 0 = [some 1, some 2, some 3] := by decide
  have hn2 : nnVals [some 1, some 2, some 3] = [1, 2, 3] := by decide
  have hm2 : colMean [1, 2, 3] = 2 := by norm_num [colMean]
  have hsd2 : sumSqDev [1, 2, 3] = 2 := by norm_num [sumSqDev, hm2]
  have hv2 : varQ [1, 2, 3] = 1 := by
    rw [varQ, hsd2]
    norm_num
  have hs2 : stdDivisor [1, 2, 3] = 1 := by
    rw [stdDivisor, hv2]
    simp
  have hzcol : zscoreCol (colOf exZ 0) = [some (-1), some 0, some 1] := by
    rw [hcolZ]
    norm_num [zscoreCol, zscoreEntry, hn2, hm2, hv2, hs2]
  have hrg3 : List.range 3 = [0, 1, 2] := by decide
  have hrg1 : List.range 1 = [0] := by decide
  have hframe : zscoreTable exZ = exZn := by
    unfold zscoreTable exZn
    rw [show exZ.rows.length = 3 from rfl, show exZ.cols.length = 1 from rfl,
      hrg3, hrg1]
    simp only [List.map_cons, List.map_nil, hzcol]
    rfl
  have hr1 : renderZ (-1) = "-1.0" := by norm_num [renderZ]
  have hr0 : renderZ 0 = "0.0" := by norm_num [renderZ]
  have hrp : renderZ 1 = "1.0" := by norm_num [renderZ]
  refine ⟨h1.1, by decide, h2.2.2.2, ?_⟩
  rw [halign, hframe]
  unfold toCsv exZn
  simp only [List.map_cons, List.map_nil, Option.map_some', Option.getD_some,
    hr1, hr0, hrp]
  decide

/-- `df_temp.rename(columns={"Value": var}, inplace=True)` (app.py lines
357 and 365): the fetched frame's `Value` column renamed to the series'
display label. -/
def renameValue {α : Type} (n : String) (f : Frame α) : Frame α :=
  { cols := f.cols.map (fun c => if c = "Value" then n else c),
    rows := f.rows }

/-- One iteration body of either loading loop:
`load_fred_series(series_map[region][var], start, end)` followed by the
rename. `fetch` abstracts the FRED call keyed by display label; a raised
`ValueError` is an `Except.error` carrying its message. -/
def fetchRen (fetch : String → Except String (Frame ℚ)) (v : String) :
    Except String (Frame ℚ) :=
  (fetch v).map (renameValue v)

/-- The first loading loop (app.py lines 353-358). It has no try/except: a
raised `ValueError` propagates and aborts the script at that point. -/
def loop1 (fetch : String → Except String (Frame ℚ)) :
    List String → Except String (List (Frame ℚ))
  | [] => Except.ok []
  | v :: vs =>
    match fetchRen fetch v with
    | Except.error e => Except.error e
    | Except.ok f => (loop1 fetch vs).map (fun l => f :: l)

/-- The second loading loop (app.py lines 361-368): per-series try/except,
collecting successes in iteration order and one formatted
`f"{var} ({series_id}): {e}"` message per failure. -/
def loop2 (fetch : String → Except String (Frame ℚ)) (sid : String → String) :
    List String → List (Frame ℚ) × List String
  | [] => ([], [])
  | v :: vs =>
    match fetchRen fetch v with
    | Except.ok f => (f :: (loop2 fetch sid vs).1, (loop2 fetch sid vs).2)
    | Except.error e => ((loop2 fetch sid vs).1,
        (v ++ " (" ++ sid v ++ "): " ++ e) :: (loop2 fetch sid vs).2)

/-- Both loading loops run in sequence over the same `df_list` (app.py
lines 353-368): the first loop's frames are all appended before the second
loop appends its own, and an exception raised in the first loop aborts the
script before the per-series error collection is ever reached. -/
def runLoadLoops (fetch : String → Except String (Frame ℚ))
    (sid : String → String) (selected : List String) :
    Except String (List (Frame ℚ) × List String) :=
  (loop1 fetch selected).map (fun l1 =>
    (l1 ++ (loop2 fetch sid selected).1, (loop2 fetch sid selected).2))

/-- A fetched frame for a series that loads successfully. -/
def fA : Frame ℚ := { cols := ["Value"], rows := [(⟨2020, 1, 1⟩, [some 1])] }

/-- Another successfully fetched frame. -/
def fC : Frame ℚ := { cols := ["Value"], rows := [(⟨2020, 1, 1⟩, [some 2])] }

/-- A fetcher for which series `B` raises `ValueError("Bad Request")` while
`A` and `C` load fine. -/
def fetchEx : String → Except String (Frame ℚ) := fun v =>
  if v = "B" then Except.error "Bad Request"
  else if v = "A" then Except.ok fA
  else Except.ok fC

/-- C6: requesting `[A, B, C]` where only `B` fails aborts the whole run
with the raised error — the unguarded first loading loop re-raises before
the try/except loop and the `failed_series` warning machinery (app.py lines
361-368 and 381-384, which embody the claimed partial-failure intent) can
produce an aligned table of `A` and `C` plus a one-entry failure list. -/
theorem partial_failure_C6_bug :
    runLoadLoops fetchEx (fun v => v) ["A", "B", "C"]
      = Except.error "Bad Request" := rfl

theorem loop1_ok (fetchTotal : String → Frame ℚ) :
    ∀ selected, loop1 (fun v => Except.ok (fetchTotal v)) selected
      = Except.ok (selected.map (fun v => renameValue v (fetchTotal v))) := by
  intro selected
  induction selected with
  | nil => rfl
  | cons v vs ih => simp [loop1, fetchRen, Except.map, ih]

theorem loop2_ok (fetchTotal : String → Frame ℚ) (sid : String → String) :
    ∀ selected, loop2 (fun v => Except.ok (fetchTotal v)) sid selected
      = (selected.map (fun v => renameValue v (fetchTotal v)), []) := by
  intro selected
  induction selected with
  | nil => rfl
  | cons v vs ih => simp [loop2, fetchRen, Except.map, ih]

/-- C10: when every fetch succeeds, the two loading loops append every
selected series to `df_list` twice — the whole selection loaded by the
unguarded first loop, then loaded again by the try/except loop — so the
list handed to the merge holds exactly `2n` frames, the entry at position
`i` being identical (same column names, same data) to the entry at
position `i + n`, and the failure list is empty. -/
theorem double_load_C10 (fetchTotal : String → Frame ℚ)
    (sid : String → String) (selected : List String) :
    runLoadLoops (fun v => Except.ok (fetchTotal v)) sid selected
      = Except.ok
          (selected.map (fun v => renameValue v (fetchTotal v))
            ++ selected.map (fun v => renameValue v (fetchTotal v)), [])
    ∧ (selected.map (fun v => renameValue v (fetchTotal v))
        ++ selected.map (fun v => renameValue v (fetchTotal v))).length
        = 2 * selected.length
    ∧ ∀ i, i < selected.length →
        (selected.map (fun v => renameValue v (fetchTotal v))
          ++ selected.map (fun v => renameValue v (fetchTotal v)))[i]?
        = (selected.map (fun v => renameValue v (fetchTotal v))
          ++ selected.map (fun v => renameValue v (fetchTotal v)))[i
            + selected.length]? := by
  refine ⟨?_, by simp [two_mul], ?_⟩
  · unfold runLoadLoops
    rw [loop1_ok, loop2_ok]
    rfl
  · intro i hi
    have hlen : (selected.map
        (fun v => renameValue v (fetchTotal v))).length = selected.length := by
      simp
    rw [List.getElem?_append, List.getElem?_append, hlen, if_pos hi,
      if_neg (by omega)]
    congr 1
    omega

/-- Witness for C10 at a two-series selection whose fetches both succeed:
`df_list` holds the renamed frames twice over, and entry 0 equals entry
`0 + 2`. -/
theorem double_load_C10_witness :
    runLoadLoops (fun _ => Except.ok fA) (fun v => v) ["A", "B"]
      = Except.ok ((["A", "B"].map (fun v => renameValue v fA))
          ++ ["A", "B"].map (fun v => renameValue v fA), [])
    ∧ ((["A", "B"].map (fun v => renameValue v fA))
        ++ ["A", "B"].map (fun v => renameValue v fA))[0]?
      = ((["A", "B"].map (fun v => renameValue v fA))
          ++ ["A", "B"].map (fun v => renameValue v fA))[2]? := by
  have h := double_load_C10 (fun _ => fA) (fun v => v) ["A", "B"]
  exact ⟨h.1, h.2.2 0 (by decide)⟩

/-- The outcome of the second revision's page run: either the date-range
guard fires, or a fetch error escapes the first loading loop, or the
loading loops complete. -/
inductive PipeErr where
  | invalidRange : PipeErr
  | fetchFailed : String → PipeErr
deriving DecidableEq

/-- The date-range guard plus the loading loops of the second revision
(app.py lines 303-305, then 353-368): `if start > end: st.error(...);
st.stop()` runs first, so nothing is fetched when the guard fires; only
when it passes do the loading loops run. -/
def rev2Run (startD endD : Date)
    (fetch : String → Except String (Frame ℚ)) (sid : String → String)
    (selected : List String) :
    Except PipeErr (List (Frame ℚ) × List String) :=
  if Date.ltb endD startD = true then Except.error PipeErr.invalidRange
  else
    match runLoadLoops fetch sid selected with
    | Except.error e => Except.error (PipeErr.fetchFailed e)
    | Except.ok r => Except.ok r

/-- C7: when the start date is strictly after the end date the run is
rejected with the invalid-range failure no matter what the fetcher would
do — no fetch influences the outcome, so none is attempted; when start ≤
end, the invalid-range rejection never occurs. -/
theorem range_guard_C7 (startD endD : Date) (sid : String → String)
    (selected : List String) :
    (Date.ltb endD startD = true →
      ∀ fetch, rev2Run startD endD fetch sid selected
        = Except.error PipeErr.invalidRange)
    ∧ (Date.ltb endD startD = false →
      ∀ fetch, rev2Run startD endD fetch sid selected
        ≠ Except.error PipeErr.invalidRange) := by
  constructor
  · intro hgt fetch
    simp [rev2Run, hgt]
  · intro hle fetch
    simp only [rev2Run, hle, Bool.false_eq_true, if_false]
    cases hr : runLoadLoops fetch sid selected <;> simp

/-- Witness for C7: a reversed range is rejected as invalid independently
of the fetcher; a proper range with the same fetcher is not. -/
theorem range_guard_C7_witness :
    rev2Run ⟨2021, 1, 1⟩ ⟨2020, 1, 1⟩ (fun _ => Except.ok fA)
        (fun v => v) ["A"]
      = Except.error PipeErr.invalidRange
    ∧ rev2Run ⟨2020, 1, 1⟩ ⟨2021, 1, 1⟩ (fun _ => Except.ok fA)
        (fun v => v) ["A"]
      ≠ Except.error PipeErr.invalidRange := by
  exact ⟨(range_guard_C7 ⟨2021, 1, 1⟩ ⟨2020, 1, 1⟩ (fun v => v) ["A"]).1
      (by decide) (fun _ => Except.ok fA),
    (range_guard_C7 ⟨2020, 1, 1⟩ ⟨2021, 1, 1⟩ (fun v => v) ["A"]).2
      (by decide) (fun _ => Except.ok fA)⟩

/-- `df[series]` in the plot loop: the column of `f` named `n` (the loop
reads only user-selected labels; an absent name, a pandas `KeyError`, is
modelled as the empty column). -/
def colByName {α : Type} (f : Frame α) (n : String) : List (Option α) :=
  match f.cols.indexOf? n with
  | some j => colOf f j
  | none => []

/-- `df_to_plot` (app.py lines 370-377): the z-scored copy of the frame
`df` in scope at line 370 when the checkbox is on, that frame unchanged
otherwise. The frame in scope there is still the first revision's merged
table; `df` is reassigned from `df_list` only later, at line 389. -/
noncomputable def rev2DfToPlot (useZ : Bool) (dfPrev : Frame ℚ) :
    Sum (Frame ℚ) (Frame ℝ) :=
  if useZ then Sum.inr (zscoreTable dfPrev) else Sum.inl dfPrev

/-- The chart traces of the second revision (app.py lines 396-405): one
`(name, x=df["date"], y=df[series])` triple per selected series, all read
from the table `df` merged at line 389 — `df_to_plot` is computed but never
passed to the plotting code. -/
noncomputable def rev2Traces (useZ : Bool) (dfPrev : Frame ℚ)
    (dfList : List (Frame ℚ)) (selected : List String) :
    List (String × List Date × List (Option ℚ)) :=
  let _dfToPlot := rev2DfToPlot useZ dfPrev
  let df := alignFrames dfList
  selected.map (fun s => (s, df.dates, colByName df s))

/-- C9: the z-score checkbox has no effect on the plotted data — two runs
of the second revision that differ only in `use_zscore` produce identical
chart traces, because the normalized `df_to_plot` is computed from the
pre-merge table and never plotted, while the traces read the unnormalized
merged `df`. -/
theorem zscore_dead_code_C9 (dfPrev : Frame ℚ) (dfList : List (Frame ℚ))
    (selected : List String) :
    rev2Traces true dfPrev dfList selected
      = rev2Traces false dfPrev dfList selected := rfl

end FedFunds
